import Mathlib

/-!
Shallow embedding of the sqlite-napi connection / statement / transaction /
migration core (repository nglmercer/sqlite-napi).  The native implementation
(Rust via NAPI, plus the TypeScript wrapper classes Database, Statement,
Transaction and the migration runner) is not present under src/; only its
tests, examples and documentation are.  Following the rules for such
repositories, the missing parts are modelled here from the specification
(spec.md), faithful to its words, and -- where the specification and the
current in-repo tests disagree -- faithful to the behaviour the dedicated
tests document (see the note on Database.query).  The SQL engine itself is an
external collaborator per spec section 1, so SQL is embedded abstractly: a
statement either creates a table, inserts a row, or is malformed, and queries
read tables back.  This is enough surface to state and settle every claim.
-/

/-- Value: the canonical tagged value type of spec section 3.  A real column
value is carried as a rational number; the claims never compute with reals. -/
inductive Value where
  | null : Value
  | integer (i : Int) : Value
  | real (r : Rat) : Value
  | text (s : String) : Value
  | blob (b : List Nat) : Value
deriving DecidableEq, Repr

/-- A table: declared column names plus the stored rows (each row is the
ordered list of column values). -/
structure Table where
  cols : List String
  rows : List (List Value)
deriving DecidableEq, Repr

/-- The persistent store: an association list from table name to table. -/
structure DbFile where
  tables : List (String × Table)
deriving DecidableEq, Repr

def emptyDb : DbFile := { tables := [] }

/-- First-match lookup in an association list of tables. -/
def lookupIn : List (String × Table) → String → Option Table
  | [], _ => none
  | p :: ps, n => if p.1 = n then some p.2 else lookupIn ps n

def lookupTable (f : DbFile) (n : String) : Option Table :=
  lookupIn f.tables n

/-- Update the first table with the given name, if any. -/
def updateIn : List (String × Table) → String → (Table → Table) → List (String × Table)
  | [], _, _ => []
  | p :: ps, n, g => if p.1 = n then (p.1, g p.2) :: ps else p :: updateIn ps n g

def updateTable (f : DbFile) (n : String) (g : Table → Table) : DbFile :=
  { tables := updateIn f.tables n g }

def tableExists (f : DbFile) (n : String) : Bool :=
  (lookupTable f n).isSome

/-- Error taxonomy of spec section 7 (the part the claims exercise). -/
inductive SqlError where
  | syntaxError : SqlError
  | noSuchTable : SqlError
  | noSuchColumn : SqlError
  | duplicateTable : SqlError
  | connectionClosed : SqlError
deriving DecidableEq, Repr

/-- Abstract embedding of one SQL statement executed for effect.  The engine
is an external collaborator (spec section 6); the core only forwards SQL text
to it, so schema-changing SQL is embedded by its effect and malformed SQL by
the constructor `invalid`. -/
inductive SqlStmt where
  | createTable (name : String) (cols : List String) : SqlStmt
  | insertRow (table : String) (vals : List Value) : SqlStmt
  | invalid : SqlStmt
deriving DecidableEq, Repr

/-- Engine-level execution of a single statement against the store. -/
def execStmt (f : DbFile) : SqlStmt → Except SqlError DbFile
  | .createTable n cs =>
      if (lookupTable f n).isSome then .error .duplicateTable
      else .ok { tables := (n, { cols := cs, rows := [] }) :: f.tables }
  | .insertRow t vals =>
      match lookupTable f t with
      | none => .error .noSuchTable
      | some _ => .ok (updateTable f t (fun tb => { tb with rows := tb.rows ++ [vals] }))
  | .invalid => .error .syntaxError

/-- Multi-statement script execution (db.exec accepts several statements).
On failure the partial effects of the earlier statements are kept, matching
engine behaviour; the error is reported alongside. -/
def execScript : DbFile → List SqlStmt → DbFile × Option SqlError
  | f, [] => (f, none)
  | f, s :: ss =>
      match execStmt f s with
      | .ok f2 => execScript f2 ss
      | .error e => (f, some e)

/-- Abstract embedding of a read-only query already carrying its bound
parameter values. -/
inductive Query where
  | selectAll (table : String) : Query
  | selectCol (table : String) (col : String) : Query
  | selectEq (table : String) (idx : Nat) (v : Value) : Query
deriving DecidableEq, Repr

def evalQuery (f : DbFile) : Query → Except SqlError (List (List Value))
  | .selectAll t =>
      match lookupTable f t with
      | none => .error .noSuchTable
      | some tb => .ok tb.rows
  | .selectCol t cname =>
      match lookupTable f t with
      | none => .error .noSuchTable
      | some tb =>
          match tb.cols.findIdx? (fun c => decide (c = cname)) with
          | none => .error .noSuchColumn
          | some i => .ok (tb.rows.map (fun r => [r.getD i Value.null]))
  | .selectEq t i v =>
      match lookupTable f t with
      | none => .error .noSuchTable
      | some tb => .ok (tb.rows.filter (fun r => decide (r.getD i Value.null = v)))

/-- SQL text as handed to db.query: either a well-formed query or malformed
text (the engine reports a syntax error for the latter when it finally
prepares it). -/
inductive Sql where
  | select (q : Query) : Sql
  | malformed : Sql
deriving DecidableEq, Repr

/-- State of a transactional scope (spec section 3, Transaction/Savepoint). -/
inductive ScopeState where
  | active : ScopeState
  | committed : ScopeState
  | rolledBack : ScopeState
deriving DecidableEq, Repr

/-- Modelled from the spec: the Connection of spec section 3 (class Database
in the missing TypeScript/Rust sources).  It owns the engine handle (the
store), the open/closed flag, the stack of snapshots for the active
transactional scopes (innermost first; spec section 4.5 models nesting as a
stack owned by the Connection) and, for bookkeeping of the scope state
machines, the ledger of every scope ever opened with its current state. -/
structure Database where
  file : DbFile
  stack : List DbFile
  ledger : List ScopeState
  closed : Bool
  target : String
deriving DecidableEq, Repr

/-- Modelled from the spec: opening a connection with a target (file path or
the in-memory marker). -/
def openDb (target : String) : Database :=
  { file := emptyDb, stack := [], ledger := [], closed := false, target := target }

def Database.filename (db : Database) : String := db.target

def Database.isClosed (db : Database) : Bool := db.closed

/-- Modelled from the spec: close is idempotent and invalidates the handle;
the only observable it changes is the closed flag (src/tests/database-properties.test.ts). -/
def Database.close (db : Database) : Database := { db with closed := true }

/-- close through the error channel: it never raises, even on an already
closed connection. -/
def Database.closeE (db : Database) : Except SqlError Database :=
  .ok (Database.close db)

/-- inTransaction: the spec section 3 transaction-depth counter is the length
of the snapshot stack; the query reports whether it is positive. -/
def Database.inTransaction (db : Database) : Bool := !db.stack.isEmpty

/-- Mark the innermost (first) still-active scope of the ledger with its
terminal state. -/
def markFirstActive : List ScopeState → ScopeState → List ScopeState
  | [], _ => []
  | s :: rest, t =>
      match s with
      | .active => t :: rest
      | _ => s :: markFirstActive rest t

def countActive (l : List ScopeState) : Nat :=
  l.countP (fun s => decide (s = ScopeState.active))

/-- Modelled from the spec: BEGIN and SAVEPOINT both push a snapshot of the
store and open a new Active scope (spec section 4.5). -/
def pushScope (db : Database) : Database :=
  { db with stack := db.file :: db.stack,
            ledger := ScopeState.active :: db.ledger }

/-- Modelled from the spec: COMMIT or RELEASE of the innermost scope keeps
the current store, pops its snapshot and marks the scope Committed. -/
def commitScope (db : Database) : Database :=
  { db with stack := db.stack.tail,
            ledger := markFirstActive db.ledger ScopeState.committed }

/-- Modelled from the spec: ROLLBACK of the innermost scope restores the
snapshot taken when the scope was opened, pops it and marks the scope
RolledBack. -/
def rollbackScope (db : Database) : Database :=
  { db with file := db.stack.headD db.file,
            stack := db.stack.tail,
            ledger := markFirstActive db.ledger ScopeState.rolledBack }

/-- A prepared statement handle: it owns the original SQL (spec section 3). -/
structure Statement where
  sql : Sql
deriving DecidableEq, Repr

/-- Modelled from the spec: db.query wraps the SQL text into a Statement.
The specification says a syntax error surfaces at prepare time, but the
dedicated in-repo tests (src/tests/error.test.ts, tests 17-23 and 57-73)
state three times that the error occurs at execution time, not at query
creation, so query performs no validation: preparation is deferred to the
first execution. -/
def Database.query (db : Database) (sql : Sql) : Except SqlError Statement :=
  if db.closed then .error .connectionClosed else .ok { sql := sql }

/-- Modelled from the spec: executing a statement (the shared path behind
all, get and values).  Engine failures -- malformed SQL, missing table,
missing column -- surface here. -/
def Statement.execRows (db : Database) (st : Statement) : Except SqlError (List (List Value)) :=
  if db.closed then .error .connectionClosed
  else
    match st.sql with
    | .malformed => .error .syntaxError
    | .select q => evalQuery db.file q

/-- all materialises every row. -/
def Statement.all (db : Database) (st : Statement) : Except SqlError (List (List Value)) :=
  Statement.execRows db st

/-- values is all without column names; rows are already bare value lists. -/
def Statement.values (db : Database) (st : Statement) : Except SqlError (List (List Value)) :=
  Statement.execRows db st

/-- Modelled from the spec: get executes and returns the first row only, or
no row when the result set is empty; every call is a fresh execution, there
is no cursor kept between calls (spec section 4.3). -/
def Statement.get (db : Database) (st : Statement) : Except SqlError (Option (List Value)) :=
  (Statement.execRows db st).map List.head?

theorem lookupIn_updateIn_ne (ps : List (String × Table)) (n r : String)
    (g : Table → Table) (h : n ≠ r) :
    lookupIn (updateIn ps n g) r = lookupIn ps r := by
  induction ps with
  | nil => rfl
  | cons p ps ih =>
      by_cases hp : p.1 = n
      · simp only [updateIn, if_pos hp, lookupIn]
        have : ¬ p.1 = r := fun hr => h (hp ▸ hr)
        simp [if_neg this]
      · simp only [updateIn, if_neg hp, lookupIn, ih]

theorem lookupIn_updateIn_self (ps : List (String × Table)) (n : String)
    (g : Table → Table) :
    lookupIn (updateIn ps n g) n = (lookupIn ps n).map g := by
  induction ps with
  | nil => rfl
  | cons p ps ih =>
      by_cases hp : p.1 = n
      · simp [updateIn, if_pos hp, lookupIn, hp]
      · simp [updateIn, if_neg hp, lookupIn, hp, ih]

theorem lookupTable_updateTable_ne (f : DbFile) (n r : String)
    (g : Table → Table) (h : n ≠ r) :
    lookupTable (updateTable f n g) r = lookupTable f r :=
  lookupIn_updateIn_ne f.tables n r g h

theorem lookupTable_updateTable_self (f : DbFile) (n : String) (g : Table → Table) :
    lookupTable (updateTable f n g) n = (lookupTable f n).map g :=
  lookupIn_updateIn_self f.tables n g

/-- The JavaScript-facing value type at the NAPI boundary: what a caller can
pass as a bind input or receive in a result row.  Byte buffers occur only on
the input side. -/
inductive JsValue where
  | jsNull : JsValue
  | int (i : Int) : JsValue
  | float (r : Rat) : JsValue
  | str (s : String) : JsValue
  | bytes (b : List Nat) : JsValue
deriving DecidableEq, Repr

def JsValue.isBytes : JsValue → Bool
  | .bytes _ => true
  | _ => false

def b64Table : List Char :=
  String.toList "ABCDEFGHIJKLMNOPQRSTUVWXYZabcdefghijklmnopqrstuvwxyz0123456789+/"

def b64Char (n : Nat) : Char := b64Table.getD n 'A'

/-- Standard base64 of a byte sequence (RFC 4648 alphabet, with padding). -/
def base64Chars : List Nat → List Char
  | [] => []
  | [a] =>
      [b64Char (a / 4), b64Char (a % 4 * 16), '=', '=']
  | [a, b] =>
      [b64Char (a / 4), b64Char (a % 4 * 16 + b / 16), b64Char (b % 16 * 4), '=']
  | a :: b :: c :: rest =>
      b64Char (a / 4) :: b64Char (a % 4 * 16 + b / 16) ::
        b64Char (b % 16 * 4 + c / 64) :: b64Char (c % 64) :: base64Chars rest

def base64Encode (bs : List Nat) : String := String.mk (base64Chars bs)

/-- Modelled from the spec: conversion of an engine column value to the
JavaScript value delivered at the NAPI boundary.  Per the BLOB tests
(src tests, BLOB retrieval and BLOB with iterator), a blob column is
delivered as a base64 string, never as a byte buffer; a NULL column stays
null. -/
def valueToJs : Value → JsValue
  | .null => .jsNull
  | .integer i => .int i
  | .real r => .float r
  | .text s => .str s
  | .blob b => .str (base64Encode b)

/-- Modelled from the spec: conversion of a JavaScript bind input into an
engine value; byte buffers are accepted and bind as blobs (spec section 4.1). -/
def jsBind : JsValue → Value
  | .jsNull => .null
  | .int i => .integer i
  | .float r => .real r
  | .str s => .text s
  | .bytes b => .blob b

def Statement.allJs (db : Database) (st : Statement) :
    Except SqlError (List (List JsValue)) :=
  (Statement.execRows db st).map (fun rs => rs.map (fun r => r.map valueToJs))

def Statement.valuesJs (db : Database) (st : Statement) :
    Except SqlError (List (List JsValue)) :=
  Statement.allJs db st

def Statement.getJs (db : Database) (st : Statement) :
    Except SqlError (Option (List JsValue)) :=
  (Statement.get db st).map (fun o => o.map (fun r => r.map valueToJs))

/-- Modelled from the spec: the Result Iterator of spec section 4.4.  It owns
the rows of its execution and a cursor position. -/
structure RowIter where
  rows : List (List Value)
  pos : Nat
deriving DecidableEq, Repr

/-- iter(params) on a statement: executes and wraps the rows with the cursor
at NotStarted. -/
def Statement.iter (db : Database) (st : Statement) : Except SqlError RowIter :=
  (Statement.execRows db st).map (fun rs => { rows := rs, pos := 0 })

def RowIter.hasMore (it : RowIter) : Bool := it.pos < it.rows.length

/-- hasMore as the method call observed by the caller: the reported Bool
together with the iterator state after the call. -/
def RowIter.hasMoreS (it : RowIter) : Bool × RowIter := (RowIter.hasMore it, it)

/-- next: yield the current row and advance, or the null sentinel once
exhausted. -/
def RowIter.next (it : RowIter) : Option (List Value) × RowIter :=
  match it.rows[it.pos]? with
  | some r => (some r, { it with pos := it.pos + 1 })
  | none => (none, it)

def RowIter.nextJs (it : RowIter) : Option (List JsValue) × RowIter :=
  ((RowIter.next it).1.map (fun r => r.map valueToJs), (RowIter.next it).2)

def RowIter.reset (it : RowIter) : RowIter := { it with pos := 0 }

/-- Migration unit of spec section 3; the SQL body is a script that may
contain several statements. -/
structure Migration where
  version : Nat
  sql : List SqlStmt
  description : Option String
deriving DecidableEq, Repr

def migLe (a b : Migration) : Prop := a.version ≤ b.version

instance : DecidableRel migLe := fun a b => Nat.decLe a.version b.version

instance : IsTotal Migration migLe := ⟨fun a b => Nat.le_total a.version b.version⟩

instance : IsTrans Migration migLe := ⟨fun _ _ _ => Nat.le_trans⟩

/-- Modelled from the spec: migrate sorts the input ascending by version
(unsorted input is explicitly supported). -/
def sortMigs (ms : List Migration) : List Migration := List.insertionSort migLe ms

def pendingFilter (cur : Nat) (target : Option Nat) (m : Migration) : Bool :=
  decide (cur < m.version) &&
    (match target with
     | none => true
     | some t => decide (m.version ≤ t))

/-- Modelled from the spec: the subsequence of migrations still to apply,
in ascending version order. -/
def selectPending (ms : List Migration) (cur : Nat) (target : Option Nat) :
    List Migration :=
  (sortMigs ms).filter (pendingFilter cur target)

def trackingName : String := "_schema_version"

/-- A statement that does not touch the reserved tracking table. -/
def untracked : SqlStmt → Bool
  | .createTable n _ => decide (n ≠ trackingName)
  | .insertRow t _ => decide (t ≠ trackingName)
  | .invalid => true

def versionOfRow (r : List Value) : Nat :=
  match r.head? with
  | some (.integer i) => i.toNat
  | _ => 0

/-- getSchemaVersion: the highest version recorded in the tracking table,
0 when the table does not yet exist (spec section 4.6). -/
def getSchemaVersion (f : DbFile) : Nat :=
  match lookupTable f trackingName with
  | none => 0
  | some tb => (tb.rows.map versionOfRow).foldl max 0

/-- Create the reserved tracking table lazily (spec section 6, persisted
state layout). -/
def ensureTracking (f : DbFile) : DbFile :=
  if (lookupTable f trackingName).isSome then f
  else { tables := (trackingName,
           { cols := ["version", "description", "applied_at"], rows := [] }) :: f.tables }

def descValue : Option String → Value
  | none => .null
  | some s => .text s

/-- Append a Migration Record to the tracking table. -/
def recordMigration (f : DbFile) (v : Nat) (d : Option String) : DbFile :=
  updateTable (ensureTracking f) trackingName
    (fun tb => { tb with rows := tb.rows ++ [[Value.integer (Int.ofNat v), descValue d]] })

/-- Run one migration: execute its script, then record its version.  On
failure the partially-updated store and the error are reported. -/
def applyMig (f : DbFile) (m : Migration) : DbFile × Option SqlError :=
  match execScript f m.sql with
  | (f2, some e) => (f2, some e)
  | (f2, none) => (recordMigration f2 m.version m.description, none)

/-- Run the pending migrations in order inside the open transaction,
stopping at the first failure. -/
def applyMigsC : Database → List Migration → Database × Option SqlError
  | db, [] => (db, none)
  | db, m :: ms =>
      match applyMig db.file m with
      | (f2, some e) => ({ db with file := f2 }, some e)
      | (f2, none) => applyMigsC { db with file := f2 } ms

/-- Modelled from the spec: the migration runner of spec section 4.6.  Read
the current version, select the pending subsequence in ascending order; when
nothing is pending return the current version without opening a transaction;
otherwise open one top-level transaction, apply each selected migration and
its record, commit once on success, and on any failure roll the entire
transaction back and propagate the error. -/
def migrate (db : Database) (migs : List Migration) (target : Option Nat) :
    Database × Except SqlError Nat :=
  if (selectPending migs (getSchemaVersion db.file) target).isEmpty then
    (db, .ok (getSchemaVersion db.file))
  else
    match applyMigsC (pushScope db) (selectPending migs (getSchemaVersion db.file) target) with
    | (db2, none) => (commitScope db2, .ok (getSchemaVersion db2.file))
    | (db2, some e) => (rollbackScope db2, .error e)

/-- Execute a list of statements against a connection, stopping at the first
engine error. -/
def execList : Database → List SqlStmt → Except SqlError Database
  | db, [] => .ok db
  | db, s :: ss =>
      match execStmt db.file s with
      | .ok f2 => execList { db with file := f2 } ss
      | .error e => .error e

/-- The same execution viewed on the bare store. -/
def execListF : DbFile → List SqlStmt → Except SqlError DbFile
  | f, [] => .ok f
  | f, s :: ss =>
      match execStmt f s with
      | .ok f2 => execListF f2 ss
      | .error e => .error e

/-- The operations a caller can issue against one connection. -/
inductive TxOp where
  | beginT : TxOp
  | savepointT : TxOp
  | commitT : TxOp
  | rollbackT : TxOp
  | execT (s : SqlStmt) : TxOp
  | closeT : TxOp
deriving DecidableEq, Repr

/-- Usage validity per spec section 4.5: begin only outside a transaction,
savepoint/commit/rollback only on an open scope, everything except close only
on an open connection. -/
def validOp (db : Database) : TxOp → Bool
  | .beginT => db.stack.isEmpty && !db.closed
  | .savepointT => !db.stack.isEmpty && !db.closed
  | .commitT => !db.stack.isEmpty && !db.closed
  | .rollbackT => !db.stack.isEmpty && !db.closed
  | .execT _ => !db.closed
  | .closeT => true

/-- Effect of one operation.  A failing statement execution leaves the state
unchanged: failures inside an Active scope do not auto-rollback
(spec section 4.5). -/
def stepOp (db : Database) : TxOp → Database
  | .beginT => pushScope db
  | .savepointT => pushScope db
  | .commitT => commitScope db
  | .rollbackT => rollbackScope db
  | .execT s =>
      match execStmt db.file s with
      | .ok f2 => { db with file := f2 }
      | .error _ => db
  | .closeT => Database.close db

/-- The connection states reachable through valid operation sequences from a
freshly opened connection. -/
inductive Reachable : Database → Prop
  | init (target : String) : Reachable (openDb target)
  | step {db : Database} (op : TxOp) :
      Reachable db → validOp db op = true → Reachable (stepOp db op)

instance exceptDecEq {ε α : Type} [DecidableEq ε] [DecidableEq α] :
    DecidableEq (Except ε α) := fun x y =>
  match x, y with
  | .ok a, .ok b =>
      if h : a = b then isTrue (by rw [h])
      else isFalse (by intro hc; injection hc; contradiction)
  | .ok _, .error _ => isFalse (fun hc => Except.noConfusion hc)
  | .error _, .ok _ => isFalse (fun hc => Except.noConfusion hc)
  | .error e, .error f =>
      if h : e = f then isTrue (by rw [h])
      else isFalse (by intro hc; injection hc; contradiction)

theorem close_iter_closed : ∀ (n : Nat) (db : Database),
    Database.isClosed (Database.close^[n + 1] db) = true := by
  intro n
  induction n with
  | zero => intro db; rfl
  | succ k ih =>
      intro db
      rw [Function.iterate_succ_apply]
      exact ih (Database.close db)

/-- Claim C6: close is idempotent: a second close does not raise (closeE
always answers ok), and after any positive number of close calls isClosed
reports true. -/
theorem close_is_idempotent (db : Database) (n : Nat) :
    Database.close (Database.close db) = Database.close db
    ∧ Database.closeE (Database.close db) = .ok (Database.close db)
    ∧ Database.isClosed (Database.close^[n + 1] db) = true :=
  ⟨rfl, rfl, close_iter_closed n db⟩

/-- Claim C10: filename returns exactly the target the connection was opened
with, and close changes only the closed flag: the target, the store, the
scope stack and the scope ledger are all untouched, so filename stays
accessible and unchanged after close. -/
theorem filename_stable_after_close (t : String) (db : Database) :
    Database.filename (openDb t) = t
    ∧ Database.filename (Database.close db) = Database.filename db
    ∧ (Database.close db).target = db.target
    ∧ (Database.close db).file = db.file
    ∧ (Database.close db).stack = db.stack
    ∧ (Database.close db).ledger = db.ledger
    ∧ (Database.close db).closed = true :=
  ⟨rfl, rfl, rfl, rfl, rfl, rfl, rfl⟩

/-- Claim C7: get returns the first row of the result set, or none when the
result set is empty; each call is the same fresh execution of the statement
(it factors through execRows and keeps no cursor), so a later call starts
from the first row again rather than continuing. -/
theorem get_returns_first_row (db : Database) (st : Statement)
    (rows : List (List Value)) (h : Statement.all db st = .ok rows) :
    Statement.get db st = .ok rows.head?
    ∧ (rows = [] → Statement.get db st = .ok none)
    ∧ (∀ r tl, rows = r :: tl → Statement.get db st = .ok (some r))
    ∧ Statement.get db st = (Statement.execRows db st).map List.head? := by
  have hx : Statement.execRows db st = .ok rows := h
  refine ⟨?_, ?_, ?_, rfl⟩
  · simp [Statement.get, hx, Except.map]
  · intro hr; simp [Statement.get, hx, hr, Except.map]
  · intro r tl hr; simp [Statement.get, hx, hr, Except.map]

theorem get_returns_first_row_witness :
    Statement.get (openDb ":memory:")
        { sql := Sql.select (Query.selectAll "users") }
      = .error SqlError.noSuchTable
    ∧ Statement.get
        { file := { tables := [("users", { cols := ["id"], rows := [[Value.integer 1], [Value.integer 2]] })] },
          stack := [], ledger := [], closed := false, target := ":memory:" }
        { sql := Sql.select (Query.selectAll "users") }
      = .ok (some [Value.integer 1]) := by
  constructor
  · decide
  · exact (get_returns_first_row
      { file := { tables := [("users", { cols := ["id"], rows := [[Value.integer 1], [Value.integer 2]] })] },
        stack := [], ledger := [], closed := false, target := ":memory:" }
      { sql := Sql.select (Query.selectAll "users") }
      [[Value.integer 1], [Value.integer 2]] (by decide)).2.2.1
      [Value.integer 1] [[Value.integer 2]] rfl

/-- Claim C8: hasMore is side-effect-free and idempotent (the observed state
after the call is the state before, any number of calls included), and it
answers true exactly when the next call to next would yield a row rather
than the null sentinel. -/
theorem hasMore_pure_idempotent_predictive (it : RowIter) :
    (RowIter.hasMoreS it).2 = it
    ∧ (RowIter.hasMoreS (RowIter.hasMoreS it).2).1 = (RowIter.hasMoreS it).1
    ∧ (RowIter.hasMore it = true ↔ (RowIter.next it).1.isSome = true)
    ∧ (RowIter.hasMore it = false ↔ (RowIter.next it).1 = none) := by
  refine ⟨rfl, rfl, ?_, ?_⟩
  · unfold RowIter.hasMore RowIter.next
    cases hg : it.rows[it.pos]? with
    | some r =>
        simp only [hg, Option.isSome_some]
        have : it.pos < it.rows.length := by
          by_contra hlt
          push_neg at hlt
          rw [List.getElem?_eq_none hlt] at hg
          exact Option.noConfusion hg
        simp [this]
    | none =>
        simp only [hg, Option.isSome_none]
        have : ¬ it.pos < it.rows.length := by
          intro hlt
          rw [List.getElem?_eq_getElem hlt] at hg
          exact Option.noConfusion hg
        simp [this]
  · unfold RowIter.hasMore RowIter.next
    cases hg : it.rows[it.pos]? with
    | some r =>
        simp only [hg]
        have : it.pos < it.rows.length := by
          by_contra hlt
          push_neg at hlt
          rw [List.getElem?_eq_none hlt] at hg
          exact Option.noConfusion hg
        simp [this]
    | none =>
        simp only [hg]
        have : ¬ it.pos < it.rows.length := by
          intro hlt
          rw [List.getElem?_eq_getElem hlt] at hg
          exact Option.noConfusion hg
        simp [this]

/-- Claim C9: every blob column value read back through the public surface
(get, all, values, iterator next) is delivered as a base64 string, never as
a byte buffer, although byte buffers are accepted as bind inputs (they bind
as blobs); a NULL column is delivered as null.  All delivery paths factor
through the single conversion valueToJs. -/
theorem blob_read_back_as_base64 :
    (∀ bs, valueToJs (Value.blob bs) = JsValue.str (base64Encode bs))
    ∧ valueToJs Value.null = JsValue.jsNull
    ∧ (∀ v, (valueToJs v).isBytes = false)
    ∧ (∀ b, jsBind (JsValue.bytes b) = Value.blob b)
    ∧ (∀ db st, Statement.allJs db st
        = (Statement.execRows db st).map (fun rs => rs.map (fun r => r.map valueToJs)))
    ∧ (∀ db st, Statement.valuesJs db st = Statement.allJs db st)
    ∧ (∀ db st, Statement.getJs db st
        = (Statement.get db st).map (fun o => o.map (fun r => r.map valueToJs)))
    ∧ (∀ it, (RowIter.nextJs it).1 = (RowIter.next it).1.map (fun r => r.map valueToJs)) := by
  refine ⟨fun bs => rfl, rfl, ?_, fun b => rfl, fun db st => rfl, fun db st => rfl,
    fun db st => rfl, fun it => rfl⟩
  intro v
  cases v <;> rfl

/-- Claim C2 counterexample: on a fresh in-memory connection, db.query of
malformed SQL answers ok (no error at prepare time); the syntax error
surfaces only when the statement is executed.  This refutes the claim that a
syntax error is raised at prepare time. -/
theorem syntax_error_not_at_prepare_counterexample :
    Database.query (openDb ":memory:") Sql.malformed = .ok { sql := Sql.malformed }
    ∧ Statement.execRows (openDb ":memory:") { sql := Sql.malformed }
        = .error SqlError.syntaxError := by
  decide

/-- Claim C2 (amended): on an open connection, db.query never raises for any
SQL text; every engine failure -- a syntax error included, like a missing
table or a missing column -- surfaces at execution time. -/
theorem errors_surface_at_execution (db : Database) (sql : Sql) (t col : String)
    (tb : Table) (hopen : db.closed = false) :
    Database.query db sql = .ok { sql := sql }
    ∧ Statement.execRows db { sql := Sql.malformed } = .error SqlError.syntaxError
    ∧ (lookupTable db.file t = none →
        Statement.execRows db { sql := Sql.select (Query.selectAll t) }
          = .error SqlError.noSuchTable)
    ∧ (lookupTable db.file t = some tb →
        tb.cols.findIdx? (fun c => decide (c = col)) = none →
        Statement.execRows db { sql := Sql.select (Query.selectCol t col) }
          = .error SqlError.noSuchColumn) := by
  refine ⟨?_, ?_, ?_, ?_⟩
  · simp [Database.query, hopen]
  · simp [Statement.execRows, hopen]
  · intro hl; simp [Statement.execRows, hopen, evalQuery, hl]
  · intro hl hc; simp [Statement.execRows, hopen, evalQuery, hl, hc]

theorem errors_surface_at_execution_witness :
    Database.query (openDb ":memory:") (Sql.select (Query.selectAll "t"))
      = .ok { sql := Sql.select (Query.selectAll "t") }
    ∧ Statement.execRows (openDb ":memory:") { sql := Sql.malformed }
        = .error SqlError.syntaxError
    ∧ Statement.execRows (openDb ":memory:") { sql := Sql.select (Query.selectAll "t") }
        = .error SqlError.noSuchTable := by
  have h := errors_surface_at_execution (openDb ":memory:")
    (Sql.select (Query.selectAll "t")) "t" "c"
    { cols := [], rows := [] } (by decide)
  exact ⟨h.1, h.2.1, h.2.2.1 (by decide)⟩

theorem applyMigsC_frame : ∀ (ms : List Migration) (db : Database),
    (applyMigsC db ms).1.stack = db.stack
    ∧ (applyMigsC db ms).1.ledger = db.ledger
    ∧ (applyMigsC db ms).1.closed = db.closed
    ∧ (applyMigsC db ms).1.target = db.target := by
  intro ms
  induction ms with
  | nil => intro db; exact ⟨rfl, rfl, rfl, rfl⟩
  | cons m ms ih =>
      intro db
      unfold applyMigsC
      cases h : applyMig db.file m with
      | mk f2 err =>
          cases err with
          | none => simpa using ih { db with file := f2 }
          | some e => exact ⟨rfl, rfl, rfl, rfl⟩

/-- Claim C1: when migrate fails (some selected migration raises during the
batch), the whole enclosing transaction is rolled back and the failure
propagated: the resulting store is exactly the pre-migrate store, so every
table created by an earlier migration of the batch is absent again and
getSchemaVersion is unchanged; the scope stack is as before. -/
theorem migrate_failure_rolls_back (db : Database) (migs : List Migration)
    (target : Option Nat) (e : SqlError)
    (h : (migrate db migs target).2 = .error e) :
    (migrate db migs target).1.file = db.file
    ∧ (migrate db migs target).1.stack = db.stack
    ∧ (∀ t, tableExists (migrate db migs target).1.file t = tableExists db.file t)
    ∧ getSchemaVersion (migrate db migs target).1.file = getSchemaVersion db.file := by
  have hmain : (migrate db migs target).1.file = db.file
      ∧ (migrate db migs target).1.stack = db.stack := by
    unfold migrate at h ⊢
    set pending := selectPending migs (getSchemaVersion db.file) target with hp
    by_cases he : pending.isEmpty
    · simp only [he, if_true] at h
      exact Except.noConfusion h
    · simp only [he, if_false] at h ⊢
      cases hap : applyMigsC (pushScope db) pending with
      | mk db2 err =>
          have hframe := applyMigsC_frame pending (pushScope db)
          rw [hap] at hframe
          cases err with
          | none => simp [hap] at h
          | some e2 =>
              simp only [hap]
              have hstack : db2.stack = db.file :: db.stack := by
                simpa [pushScope] using hframe.1
              constructor
              · simp [rollbackScope, hstack]
              · simp [rollbackScope, hstack]
  exact ⟨hmain.1, hmain.2, fun t => by rw [hmain.1], by rw [hmain.1]⟩

theorem migrate_failure_rolls_back_witness :
    (migrate (openDb ":memory:")
        [ { version := 1, sql := [SqlStmt.createTable "x" ["id"]], description := none },
          { version := 2, sql := [SqlStmt.invalid], description := none } ]
        none).2 = .error SqlError.syntaxError
    ∧ tableExists (migrate (openDb ":memory:")
        [ { version := 1, sql := [SqlStmt.createTable "x" ["id"]], description := none },
          { version := 2, sql := [SqlStmt.invalid], description := none } ]
        none).1.file "x" = false
    ∧ getSchemaVersion (migrate (openDb ":memory:")
        [ { version := 1, sql := [SqlStmt.createTable "x" ["id"]], description := none },
          { version := 2, sql := [SqlStmt.invalid], description := none } ]
        none).1.file = 0 := by
  have herr : (migrate (openDb ":memory:")
      [ { version := 1, sql := [SqlStmt.createTable "x" ["id"]], description := none },
        { version := 2, sql := [SqlStmt.invalid], description := none } ]
      none).2 = .error SqlError.syntaxError := by decide
  have h := migrate_failure_rolls_back (openDb ":memory:")
    [ { version := 1, sql := [SqlStmt.createTable "x" ["id"]], description := none },
      { version := 2, sql := [SqlStmt.invalid], description := none } ]
    none SqlError.syntaxError herr
  refine ⟨herr, ?_, ?_⟩
  · rw [h.2.2.1 "x"]; decide
  · rw [h.2.2.2]; decide

theorem execList_eq : ∀ (ss : List SqlStmt) (db : Database),
    execList db ss = (execListF db.file ss).map (fun f => { db with file := f }) := by
  intro ss
  induction ss with
  | nil =>
      intro db
      rfl
  | cons s ss ih =>
      intro db
      unfold execList execListF
      cases hs : execStmt db.file s with
      | ok f2 => simpa using ih { db with file := f2 }
      | error e => rfl

theorem execList_ok_inv (db db2 : Database) (ss : List SqlStmt)
    (h : execList db ss = .ok db2) :
    ∃ f, execListF db.file ss = .ok f ∧ db2 = { db with file := f } := by
  rw [execList_eq] at h
  cases hf : execListF db.file ss with
  | ok f =>
      rw [hf] at h
      exact ⟨f, rfl, by injection h with h2; exact h2.symm⟩
  | error e =>
      rw [hf] at h
      exact Except.noConfusion h

theorem execListF_append (l1 l2 : List SqlStmt) : ∀ (f : DbFile),
    execListF f (l1 ++ l2)
      = match execListF f l1 with
        | .ok f2 => execListF f2 l2
        | .error e => .error e := by
  induction l1 with
  | nil => intro f; rfl
  | cons s l1 ih =>
      intro f
      rw [List.cons_append]
      cases hs : execStmt f s with
      | ok f2 =>
          have hl : execListF f (s :: (l1 ++ l2)) = execListF f2 (l1 ++ l2) := by
            simp [execListF, hs]
          have hr : execListF f (s :: l1) = execListF f2 l1 := by
            simp [execListF, hs]
          rw [hl, hr, ih f2]
      | error e =>
          have hl : execListF f (s :: (l1 ++ l2)) = .error e := by
            simp [execListF, hs]
          have hr : execListF f (s :: l1) = .error e := by
            simp [execListF, hs]
          rw [hl, hr]

/-- Claim C4: in the sequence begin, savepoint a, savepoint b, rollback b,
commit a, commit, with write batches w0 (after begin), w1 (after savepoint
a), w2 (between savepoint b and its rollback), w3 (after rollback b) and w4
(after commit a), the final store is the initial store with exactly the
batches w0, w1, w3, w4 applied -- the writes issued strictly between
savepoint b and rollback b are absent, all the others are present -- and the
scope stack is balanced back to its initial state. -/
theorem savepoint_rollback_scopes_writes
    (c0 c2 c4 c6 c8 c10 : Database) (w0 w1 w2 w3 w4 : List SqlStmt)
    (h0 : execList (pushScope c0) w0 = .ok c2)
    (h1 : execList (pushScope c2) w1 = .ok c4)
    (h2 : execList (pushScope c4) w2 = .ok c6)
    (h3 : execList (rollbackScope c6) w3 = .ok c8)
    (h4 : execList (commitScope c8) w4 = .ok c10) :
    execListF c0.file (w0 ++ w1 ++ w3 ++ w4) = .ok (commitScope c10).file
    ∧ (commitScope c10).stack = c0.stack := by
  obtain ⟨f0, hf0, hc2⟩ := execList_ok_inv _ _ _ h0
  subst hc2
  obtain ⟨f1, hf1, hc4⟩ := execList_ok_inv _ _ _ h1
  subst hc4
  obtain ⟨f2, hf2, hc6⟩ := execList_ok_inv _ _ _ h2
  subst hc6
  obtain ⟨f3, hf3, hc8⟩ := execList_ok_inv _ _ _ h3
  subst hc8
  obtain ⟨f4, hf4, hc10⟩ := execList_ok_inv _ _ _ h4
  subst hc10
  have hf0x : execListF c0.file w0 = Except.ok f0 := hf0
  have hf1x : execListF f0 w1 = Except.ok f1 := hf1
  have hf3x : execListF f1 w3 = Except.ok f3 := hf3
  have hf4x : execListF f3 w4 = Except.ok f4 := hf4
  have e1 : execListF c0.file (w0 ++ w1) = Except.ok f1 := by
    rw [execListF_append, hf0x]; exact hf1x
  have e2 : execListF c0.file (w0 ++ w1 ++ w3) = Except.ok f3 := by
    rw [execListF_append, e1]; exact hf3x
  have e3 : execListF c0.file (w0 ++ w1 ++ w3 ++ w4) = Except.ok f4 := by
    rw [execListF_append, e2]; exact hf4x
  exact ⟨e3, rfl⟩

def exDb (r : Except SqlError Database) : Database :=
  match r with
  | .ok db => db
  | .error _ => openDb ""

def w4base : Database :=
  exDb (execList (openDb ":memory:")
    [ SqlStmt.createTable "accounts" ["id", "balance"],
      SqlStmt.insertRow "accounts" [Value.integer 1, Value.integer 100],
      SqlStmt.insertRow "accounts" [Value.integer 2, Value.integer 100] ])

def w4w0 : List SqlStmt := [SqlStmt.insertRow "accounts" [Value.integer 3, Value.integer 200]]

def w4w1 : List SqlStmt := [SqlStmt.insertRow "accounts" [Value.integer 4, Value.integer 300]]

def w4w2 : List SqlStmt := [SqlStmt.insertRow "accounts" [Value.integer 5, Value.integer 400]]

def w4w3 : List SqlStmt := []

def w4w4 : List SqlStmt := []

def w4c2 : Database := exDb (execList (pushScope w4base) w4w0)

def w4c4 : Database := exDb (execList (pushScope w4c2) w4w1)

def w4c6 : Database := exDb (execList (pushScope w4c4) w4w2)

def w4c8 : Database := exDb (execList (rollbackScope w4c6) w4w3)

def w4c10 : Database := exDb (execList (commitScope w4c8) w4w4)

theorem savepoint_rollback_scopes_writes_witness :
    execListF w4base.file (w4w0 ++ w4w1 ++ w4w3 ++ w4w4) = .ok (commitScope w4c10).file
    ∧ (commitScope w4c10).stack = w4base.stack
    ∧ ((lookupTable (commitScope w4c10).file "accounts").map (fun tb => tb.rows.length))
        = some 4 := by
  have h := savepoint_rollback_scopes_writes w4base w4c2 w4c4 w4c6 w4c8 w4c10
    w4w0 w4w1 w4w2 w4w3 w4w4 (by decide) (by decide) (by decide) (by decide) (by decide)
  exact ⟨h.1, h.2, by decide⟩

theorem countActive_cons_active (l : List ScopeState) :
    countActive (ScopeState.active :: l) = countActive l + 1 := by
  simp [countActive, List.countP_cons]

theorem countActive_cons_inactive (s : ScopeState) (hs : s ≠ ScopeState.active)
    (l : List ScopeState) :
    countActive (s :: l) = countActive l := by
  simp [countActive, List.countP_cons, hs]

theorem countActive_mark (t : ScopeState) (ht : t ≠ ScopeState.active) :
    ∀ (l : List ScopeState), 0 < countActive l →
    countActive (markFirstActive l t) = countActive l - 1 := by
  intro l
  induction l with
  | nil => intro h; simp [countActive] at h
  | cons s rest ih =>
      intro h
      cases s with
      | active =>
          simp only [markFirstActive]
          rw [countActive_cons_inactive t ht, countActive_cons_active]
          simp
      | committed =>
          simp only [markFirstActive]
          rw [countActive_cons_inactive ScopeState.committed (by simp) rest] at h
          rw [countActive_cons_inactive ScopeState.committed (by simp),
            countActive_cons_inactive ScopeState.committed (by simp) rest, ih h]
      | rolledBack =>
          simp only [markFirstActive]
          rw [countActive_cons_inactive ScopeState.rolledBack (by simp) rest] at h
          rw [countActive_cons_inactive ScopeState.rolledBack (by simp),
            countActive_cons_inactive ScopeState.rolledBack (by simp) rest, ih h]

/-- The transaction-depth counter always equals the number of scopes the
ledger still records as Active. -/
theorem reachable_depth {db : Database} (h : Reachable db) :
    db.stack.length = countActive db.ledger := by
  induction h with
  | init target => rfl
  | step op hr hv ih =>
      rename_i db2
      cases op with
      | beginT =>
          simp only [stepOp, pushScope, List.length_cons, countActive_cons_active, ih]
      | savepointT =>
          simp only [stepOp, pushScope, List.length_cons, countActive_cons_active, ih]
      | commitT =>
          have hne : db2.stack ≠ [] := by
            simp only [validOp, Bool.and_eq_true] at hv
            simpa using hv.1
          have hpos : 0 < countActive db2.ledger := by
            rw [← ih]
            exact List.length_pos.mpr hne
          simp only [stepOp, commitScope, List.length_tail,
            countActive_mark ScopeState.committed (by simp) db2.ledger hpos, ih]
      | rollbackT =>
          have hne : db2.stack ≠ [] := by
            simp only [validOp, Bool.and_eq_true] at hv
            simpa using hv.1
          have hpos : 0 < countActive db2.ledger := by
            rw [← ih]
            exact List.length_pos.mpr hne
          simp only [stepOp, rollbackScope, List.length_tail,
            countActive_mark ScopeState.rolledBack (by simp) db2.ledger hpos, ih]
      | execT s =>
          simp only [stepOp]
          cases hs : execStmt db2.file s with
          | ok f2 => simpa using ih
          | error e => simpa using ih
      | closeT =>
          simpa [stepOp, Database.close] using ih

/-- Claim C5: at every reachable point in the lifetime of a connection,
inTransaction answers true exactly when some transactional scope is still
Active in the scope ledger: false before begin and after the top-level
commit or rollback, true while the top-level transaction is Active even
after an inner savepoint was committed or rolled back. -/
theorem inTransaction_tracks_active_scopes (db : Database) (h : Reachable db) :
    Database.inTransaction db = true ↔ ScopeState.active ∈ db.ledger := by
  have hd := reachable_depth h
  constructor
  · intro hin
    have hne : db.stack ≠ [] := by
      simpa [Database.inTransaction] using hin
    have hpos : 0 < countActive db.ledger := by
      rw [← hd]
      exact List.length_pos.mpr hne
    obtain ⟨a, ha, hpa⟩ := List.countP_pos_iff.mp hpos
    have : a = ScopeState.active := by simpa using hpa
    exact this ▸ ha
  · intro hmem
    have hpos : 0 < countActive db.ledger :=
      List.countP_pos_iff.mpr ⟨ScopeState.active, hmem, by simp⟩
    have hne : db.stack ≠ [] := by
      intro hnil
      rw [hnil] at hd
      simp only [List.length_nil] at hd
      omega
    simpa [Database.inTransaction] using hne

def c5state : Database :=
  stepOp (stepOp (stepOp (openDb ":memory:") TxOp.beginT) TxOp.savepointT) TxOp.commitT

theorem inTransaction_tracks_active_scopes_witness :
    (Database.inTransaction c5state = true ↔ ScopeState.active ∈ c5state.ledger)
    ∧ Database.inTransaction c5state = true
    ∧ Database.inTransaction (stepOp c5state TxOp.commitT) = false := by
  refine ⟨?_, by decide, by decide⟩
  exact inTransaction_tracks_active_scopes c5state
    (Reachable.step TxOp.commitT
      (Reachable.step TxOp.savepointT
        (Reachable.step TxOp.beginT (Reachable.init ":memory:") (by decide))
        (by decide))
      (by decide))

theorem getSchemaVersion_congr (f g : DbFile)
    (h : lookupTable f trackingName = lookupTable g trackingName) :
    getSchemaVersion f = getSchemaVersion g := by
  simp [getSchemaVersion, h]

theorem getSchemaVersion_record (f : DbFile) (v : Nat) (d : Option String) :
    getSchemaVersion (recordMigration f v d) = max (getSchemaVersion f) v := by
  cases hl : lookupTable f trackingName with
  | some tb =>
      have hens : ensureTracking f = f := by
        simp [ensureTracking, hl]
      have hlook : lookupTable (recordMigration f v d) trackingName
          = some { tb with rows := tb.rows ++ [[Value.integer (Int.ofNat v), descValue d]] } := by
        unfold recordMigration
        rw [hens, lookupTable_updateTable_self, hl]
        rfl
      simp only [getSchemaVersion, hlook, hl]
      rw [List.map_append, List.foldl_append]
      simp [versionOfRow]
  | none =>
      have hens : ensureTracking f
          = { tables := (trackingName,
                { cols := ["version", "description", "applied_at"], rows := [] }) :: f.tables } := by
        simp [ensureTracking, hl]
      have hbase : lookupTable (ensureTracking f) trackingName
          = some { cols := ["version", "description", "applied_at"], rows := [] } := by
        rw [hens]
        simp [lookupTable, lookupIn]
      have hlook : lookupTable (recordMigration f v d) trackingName
          = some { cols := ["version", "description", "applied_at"],
                   rows := [[Value.integer (Int.ofNat v), descValue d]] } := by
        unfold recordMigration
        rw [lookupTable_updateTable_self, hbase]
        rfl
      simp only [getSchemaVersion, hlook, hl]
      simp [versionOfRow]

theorem execStmt_preserves_tracking (f f2 : DbFile) (s : SqlStmt)
    (h : execStmt f s = .ok f2) (hu : untracked s = true) :
    lookupTable f2 trackingName = lookupTable f trackingName := by
  cases s with
  | createTable n cs =>
      have hn : n ≠ trackingName := by simpa [untracked] using hu
      by_cases hex : (lookupTable f n).isSome = true
      · simp [execStmt, hex] at h
      · simp only [execStmt, hex, if_false, Bool.false_eq_true] at h
        injection h with h2
        rw [← h2]
        simp [lookupTable, lookupIn, hn]
  | insertRow t vals =>
      have ht : t ≠ trackingName := by simpa [untracked] using hu
      cases hl : lookupTable f t with
      | none => simp [execStmt, hl] at h
      | some tb =>
          simp only [execStmt, hl] at h
          injection h with h2
          rw [← h2]
          exact lookupTable_updateTable_ne f t trackingName _ ht
  | invalid => simp [execStmt] at h

theorem execScript_preserves_tracking : ∀ (ss : List SqlStmt) (f : DbFile),
    (∀ s ∈ ss, untracked s = true) →
    (execScript f ss).2 = none →
    lookupTable (execScript f ss).1 trackingName = lookupTable f trackingName := by
  intro ss
  induction ss with
  | nil => intro f _ _; rfl
  | cons s ss ih =>
      intro f hu hok
      cases hs : execStmt f s with
      | ok f2 =>
          have heq : execScript f (s :: ss) = execScript f2 ss := by
            simp [execScript, hs]
          rw [heq] at hok ⊢
          rw [ih f2 (fun x hx => hu x (List.mem_cons_of_mem s hx)) hok]
          exact execStmt_preserves_tracking f f2 s hs (hu s (List.mem_cons_self s ss))
      | error e =>
          have heq : execScript f (s :: ss) = (f, some e) := by
            simp [execScript, hs]
          rw [heq] at hok
          exact Option.noConfusion hok

theorem applyMigsC_version : ∀ (ms : List Migration) (db : Database),
    (∀ m ∈ ms, ∀ s ∈ m.sql, untracked s = true) →
    (applyMigsC db ms).2 = none →
    getSchemaVersion (applyMigsC db ms).1.file
      = (ms.map (fun m => m.version)).foldl max (getSchemaVersion db.file) := by
  intro ms
  induction ms with
  | nil => intro db _ _; rfl
  | cons m ms ih =>
      intro db hu hok
      cases hsc : execScript db.file m.sql with
      | mk f2 err =>
          cases err with
          | some e =>
              have heq : applyMigsC db (m :: ms) = ({ db with file := f2 }, some e) := by
                simp [applyMigsC, applyMig, hsc]
              rw [heq] at hok
              exact Option.noConfusion hok
          | none =>
              have happ : applyMigsC db (m :: ms)
                  = applyMigsC { db with file := recordMigration f2 m.version m.description } ms := by
                simp [applyMigsC, applyMig, hsc]
              rw [happ] at hok ⊢
              rw [ih _ (fun x hx => hu x (List.mem_cons_of_mem m hx)) hok]
              have hpres := execScript_preserves_tracking m.sql db.file
                (hu m (List.mem_cons_self m ms)) (by rw [hsc])
              rw [hsc] at hpres
              have h1 : getSchemaVersion f2 = getSchemaVersion db.file :=
                getSchemaVersion_congr f2 db.file hpres
              have h2 : getSchemaVersion (recordMigration f2 m.version m.description)
                  = max (getSchemaVersion db.file) m.version := by
                rw [getSchemaVersion_record, h1]
              simp [h2]

theorem foldl_max_perm : ∀ {l1 l2 : List Nat}, l1.Perm l2 →
    ∀ (a : Nat), l1.foldl max a = l2.foldl max a := by
  intro l1 l2 h
  induction h with
  | nil => intro a; rfl
  | cons x _ ih => intro a; simp only [List.foldl_cons]; exact ih (max a x)
  | swap x y l => intro a; simp only [List.foldl_cons]; rw [sup_right_comm]
  | trans _ _ ih1 ih2 => intro a; rw [ih1 a, ih2 a]

theorem le_foldl_max : ∀ (l : List Nat) (a : Nat), a ≤ l.foldl max a := by
  intro l
  induction l with
  | nil => intro a; exact le_refl a
  | cons x l ih => intro a; exact le_trans (le_max_left a x) (ih (max a x))

theorem mem_le_foldl_max : ∀ (l : List Nat) (x : Nat), x ∈ l → ∀ (a : Nat),
    x ≤ l.foldl max a := by
  intro l
  induction l with
  | nil => intro x hx; cases hx
  | cons y l ih =>
      intro x hx a
      rcases List.mem_cons.mp hx with h | h
      · subst h
        exact le_trans (le_max_right a x) (le_foldl_max l (max a x))
      · exact ih x h (max a y)

theorem pairwise_and_of {α : Type} {R S : α → α → Prop} : ∀ {l : List α},
    l.Pairwise R → l.Pairwise S → l.Pairwise (fun a b => R a b ∧ S a b) := by
  intro l
  induction l with
  | nil => intro _ _; exact List.Pairwise.nil
  | cons a l ih =>
      intro hR hS
      rcases List.pairwise_cons.mp hR with ⟨hRa, hRl⟩
      rcases List.pairwise_cons.mp hS with ⟨hSa, hSl⟩
      exact List.pairwise_cons.mpr ⟨fun b hb => ⟨hRa b hb, hSa b hb⟩, ih hRl hSl⟩

/-- Claim C3: for a migration list supplied in any order whose versions are
pairwise distinct and all pending, and whose scripts leave the reserved
tracking table alone, a successful migrate applies the selected migrations
in strictly ascending version order (the selected subsequence is pairwise
increasing), returns the highest version of the list, and a second migrate
with the same list is a no-op on the connection returning that same version. -/
theorem migrate_orders_and_is_idempotent (db : Database) (migs : List Migration) (v : Nat)
    (hnd : (migs.map (fun m => m.version)).Nodup)
    (hpos : ∀ m ∈ migs, getSchemaVersion db.file < m.version)
    (hunt : ∀ m ∈ migs, ∀ s ∈ m.sql, untracked s = true)
    (hne : migs ≠ [])
    (h : (migrate db migs none).2 = .ok v) :
    List.Pairwise (fun a b => a.version < b.version)
        (selectPending migs (getSchemaVersion db.file) none)
    ∧ v = (migs.map (fun m => m.version)).foldl max (getSchemaVersion db.file)
    ∧ migrate (migrate db migs none).1 migs none = ((migrate db migs none).1, .ok v) := by
  have hperm : (sortMigs migs).Perm migs := List.perm_insertionSort migLe migs
  have hpend : selectPending migs (getSchemaVersion db.file) none = sortMigs migs := by
    unfold selectPending
    apply List.filter_eq_self.mpr
    intro m hm
    have hmm : m ∈ migs := hperm.mem_iff.mp hm
    simp [pendingFilter, hpos m hmm]
  have hsorted : List.Pairwise migLe (sortMigs migs) :=
    List.sorted_insertionSort migLe migs
  have hndmap : ((sortMigs migs).map (fun m => m.version)).Nodup :=
    ((hperm.map (fun m => m.version)).nodup_iff).mpr hnd
  have hnever : List.Pairwise (fun a b : Migration => a.version ≠ b.version) (sortMigs migs) :=
    List.pairwise_map.mp hndmap
  have hlt : List.Pairwise (fun a b : Migration => a.version < b.version) (sortMigs migs) :=
    (pairwise_and_of hsorted hnever).imp (fun hab => lt_of_le_of_ne hab.1 hab.2)
  have hsne : sortMigs migs ≠ [] := by
    intro h0
    exact hne ((h0 ▸ hperm).symm.eq_nil)
  have hempty : (selectPending migs (getSchemaVersion db.file) none).isEmpty = false := by
    rw [hpend]
    cases hs : sortMigs migs with
    | nil => exact absurd hs hsne
    | cons a as => rfl
  cases hap : applyMigsC (pushScope db) (selectPending migs (getSchemaVersion db.file) none) with
  | mk db2 err =>
      cases err with
      | some e =>
          have hmig : migrate db migs none = (rollbackScope db2, Except.error e) := by
            unfold migrate
            simp only [hempty, Bool.false_eq_true, if_false]
            rw [hap]
          rw [hmig] at h
          exact Except.noConfusion h
      | none =>
          have hmig : migrate db migs none
              = (commitScope db2, Except.ok (getSchemaVersion db2.file)) := by
            unfold migrate
            simp only [hempty, Bool.false_eq_true, if_false]
            rw [hap]
          rw [hmig] at h
          have h2 : Except.ok (getSchemaVersion db2.file) = Except.ok v := h
          injection h2 with hv
          have hgv : getSchemaVersion db2.file
              = ((selectPending migs (getSchemaVersion db.file) none).map
                  (fun m => m.version)).foldl max (getSchemaVersion db.file) := by
            have hx := applyMigsC_version
              (selectPending migs (getSchemaVersion db.file) none) (pushScope db)
              (fun m hm s hs => hunt m (hperm.mem_iff.mp (by rw [← hpend]; exact hm)) s hs)
              (by rw [hap])
            rw [hap] at hx
            exact hx
          have hfold : ((selectPending migs (getSchemaVersion db.file) none).map
              (fun m => m.version)).foldl max (getSchemaVersion db.file)
              = (migs.map (fun m => m.version)).foldl max (getSchemaVersion db.file) := by
            rw [hpend]
            exact foldl_max_perm (hperm.map (fun m => m.version)) _
          have hvchar : v = (migs.map (fun m => m.version)).foldl max
              (getSchemaVersion db.file) := by
            rw [← hv, hgv]
            exact hfold
          have hver2 : getSchemaVersion (migrate db migs none).1.file = v := by
            rw [hmig]
            exact hv
          have hall : ∀ m ∈ sortMigs migs, pendingFilter v none m = false := by
            intro m hm
            have hmm := hperm.mem_iff.mp hm
            have hle : m.version ≤ (migs.map (fun m => m.version)).foldl max
                (getSchemaVersion db.file) :=
              mem_le_foldl_max _ m.version (List.mem_map_of_mem _ hmm) _
            have hnlt : ¬ v < m.version := by
              rw [hvchar]
              omega
            simp [pendingFilter, hnlt]
          have hpend2 : selectPending migs v none = [] := by
            unfold selectPending
            refine List.filter_eq_nil_iff.mpr ?_
            intro m hm
            simp [hall m hm]
          have hmig2 : ∀ M : Database, getSchemaVersion M.file = v →
              migrate M migs none = (M, Except.ok (getSchemaVersion M.file)) := by
            intro M hM
            unfold migrate
            have hemp2 : (selectPending migs (getSchemaVersion M.file) none).isEmpty
                = true := by
              rw [hM, hpend2]
              rfl
            simp [hemp2]
          refine ⟨by rw [hpend]; exact hlt, hvchar, ?_⟩
          rw [hmig2 (migrate db migs none).1 hver2, hver2]

def c3migs : List Migration :=
  [ { version := 3, sql := [SqlStmt.createTable "posts" ["id"]], description := none },
    { version := 1, sql := [SqlStmt.createTable "users" ["id"]], description := none },
    { version := 2, sql := [SqlStmt.insertRow "users" [Value.integer 1]], description := none } ]

theorem migrate_orders_and_is_idempotent_witness :
    (migrate (openDb ":memory:") c3migs none).2 = .ok 3
    ∧ List.Pairwise (fun a b => a.version < b.version)
        (selectPending c3migs (getSchemaVersion (openDb ":memory:").file) none)
    ∧ migrate (migrate (openDb ":memory:") c3migs none).1 c3migs none
        = ((migrate (openDb ":memory:") c3migs none).1, .ok 3) := by
  have hm : (migrate (openDb ":memory:") c3migs none).2 = .ok 3 := by decide
  have h := migrate_orders_and_is_idempotent (openDb ":memory:") c3migs 3
    (by decide) (by decide) (by decide) (by decide) hm
  exact ⟨hm, h.1, h.2.2⟩
